import Mathlib

/-!
Verification of the radikoRecScheduler core: the weekly-recurrence time
resolver (`src/internal/timecalc.go`) and the segmented download/assembly
pipeline (`runner.go`: `ExecuteJob`, `bulkDownload`, `concatAACFiles`).

Shallow embedding conventions:
* A Go `time.Time` carried in the fixed reference zone (Asia/Tokyo, a fixed
  UTC+9 offset with no daylight saving) is an `Int` counting seconds of JST
  civil time; the day starting at instant 0 is a Sunday (2000-01-02 JST).
  Because the offset is fixed, Go's civil-field operations (`Year/Month/Day`,
  `time.Date`, `AddDate(0,0,n)`, `Weekday`, `After`) are linear in this
  scale: `AddDate(0,0,n)` adds `n*86400`, `time.Date(Y,M,D,h,m,s,0,JST)`
  for the civil day containing `t` is `86400*(t/86400) + h*3600+m*60+s`,
  and `Weekday` is `(t/86400) % 7` (Go numbering, Sunday = 0).
* The filesystem is a map from paths to byte lists plus oracles telling
  whether `os.Create` succeeds for a path and whether writes to a created
  file succeed.  Directories are abstracted into these oracles.
* Fallible external calls (the radiko client, `http` requests,
  `os.MkdirTemp`, `os.MkdirAll`) are oracles in a `World` record; errors are
  inductive values whose fields are exactly the data interpolated into the
  corresponding Go `fmt.Errorf` format string.
-/

set_option linter.unusedVariables false

namespace RadikoRec

/-! ## Data model: `ScheduleEntry` (schedule.go) -/

/-- Go struct `ScheduleEntry` (program_name, day_of_week, start_time,
station_id). -/
structure ScheduleEntry where
  ProgramName : String
  DayOfWeek : String
  StartTime : String
  StationID : String

/-! ## Time resolver: `src/internal/timecalc.go` -/

/-- Go `now.Weekday()` in the JST-seconds model: day 0 is a Sunday and Go
numbers Sunday = 0, so the weekday is the day index modulo 7. -/
def weekdayOf (t : Int) : Int := (t / 86400) % 7

/-- Go `time.Date(now.Year(), now.Month(), now.Day(), 0, 0, 0, 0, JST)`:
midnight opening the civil day that contains `t`. -/
def startOfDayOf (t : Int) : Int := 86400 * (t / 86400)

/-- Go `var DayOfWeekMap = map[string]time.Weekday{...}` from timecalc.go:
Japanese day-of-week symbol to Go weekday ordinal (Sunday = 0). -/
def DayOfWeekMap (s : String) : Option Nat :=
  if s = "日" then some 0
  else if s = "月" then some 1
  else if s = "火" then some 2
  else if s = "水" then some 3
  else if s = "木" then some 4
  else if s = "金" then some 5
  else if s = "土" then some 6
  else none

/-- Go stdlib `getnum` used by `time.Parse`: reads one number from the front
of the input; two digits if the first two characters are digits, otherwise a
single digit unless `fixed` demands exactly two. -/
def getnum2 : List Char → Bool → Option (Nat × List Char)
  | c1 :: c2 :: rest, fixed =>
    if c1.isDigit then
      if c2.isDigit then
        some ((c1.toNat - 48) * 10 + (c2.toNat - 48), rest)
      else if fixed then none
      else some (c1.toNat - 48, c2 :: rest)
    else none
  | [c1], fixed =>
    if c1.isDigit then
      if fixed then none else some (c1.toNat - 48, [])
    else none
  | [], _ => none

/-- Go `time.ParseInLocation("150405", s, JST)` restricted to the fields the
layout `"150405"` produces: hour (`getnum` non-fixed), zero-padded minute and
second (`getnum` fixed), no text may remain, and the stdlib range checks
hour < 24, minute < 60, second < 60. Returns the parsed (hour, minute,
second) or `none` for a parse error. -/
def parseHHMMSS (s : String) : Option (Nat × Nat × Nat) :=
  match getnum2 s.data false with
  | none => none
  | some (hour, r1) =>
    match getnum2 r1 true with
    | none => none
    | some (minute, r2) =>
      match getnum2 r2 true with
      | none => none
      | some (sec, r3) =>
        if r3 = [] ∧ hour < 24 ∧ minute < 60 ∧ sec < 60 then
          some (hour, minute, sec)
        else none

/-- Errors of `CalculateRecentPastRunTime`: the two `fmt.Errorf` cases in
timecalc.go, carrying exactly the interpolated field. -/
inductive TimeCalcErr where
  | invalidDayOfWeek (day : String)
  | invalidStartTime (startTime : String)
deriving DecidableEq

/-- The `candidate` value of timecalc.go lines 43-47: today's date at the
parsed time-of-day, shifted by `targetWeekday - now.Weekday()` days. -/
def candidateOf (now : Int) (targetWeekday : Nat) (tod : Int) : Int :=
  startOfDayOf now + tod + ((targetWeekday : Int) - weekdayOf now) * 86400

/-- Go `CalculateRecentPastRunTime` (timecalc.go lines 31-57): map the
day-of-week symbol, parse the start time, build the in-week candidate, and
step back one week exactly when the candidate is strictly after `now`. -/
def CalculateRecentPastRunTime (entry : ScheduleEntry) (now : Int) :
    Except TimeCalcErr Int :=
  match DayOfWeekMap entry.DayOfWeek with
  | none => .error (.invalidDayOfWeek entry.DayOfWeek)
  | some targetWeekday =>
    match parseHHMMSS entry.StartTime with
    | none => .error (.invalidStartTime entry.StartTime)
    | some (h, m, s) =>
      let candidate := candidateOf now targetWeekday ((h : Int) * 3600 + m * 60 + s)
      if now < candidate then .ok (candidate - 7 * 86400) else .ok candidate

/-! ## Filesystem model

Files are a map from path to byte contents (bytes as `Nat`).  `createOk`
tells whether `os.Create` can create-or-truncate a path (it abstracts the
state of the containing directory); `writeOk` tells whether writes
(`io.Copy`) into a file at that path succeed.  Directories themselves are
abstracted into these oracles; `os.RemoveAll tempDir` removes every file
whose path lies under `tempDir`. -/

structure FS where
  files : String → Option (List Nat)
  createOk : String → Bool
  writeOk : String → Bool

/-- Go `os.Create`: creates or truncates the file, leaving it empty. -/
def FS.create (fs : FS) (p : String) : FS :=
  { fs with files := fun q => if q = p then some [] else fs.files q }

/-- Successful `io.Copy` of `bs` into the open file at `p` (appends). -/
def FS.append (fs : FS) (p : String) (bs : List Nat) : FS :=
  { fs with files := fun q => if q = p then (fs.files p).map (· ++ bs) else fs.files q }

/-- Boolean string prefix test (on the character lists). -/
def hasPre (pre s : String) : Bool := pre.data.isPrefixOf s.data

/-- Go `os.RemoveAll dir`: every file under `dir` disappears. -/
def FS.removeUnder (fs : FS) (dir : String) : FS :=
  { fs with files := fun q => if hasPre (dir ++ "/") q then none else fs.files q }

/-- Go `filepath.Join dir name` for a nonempty, slash-free-tail `dir` as
produced by `os.MkdirTemp`: `dir ++ "/" ++ name`. -/
def joinPath (dir name : String) : String := dir ++ "/" ++ name

/-! ## Decimal formatting: Go `fmt.Sprintf("%04d", i)` etc. -/

/-- Most-significant-first decimal digits of `n`; `fuel` bounds the
recursion and any `fuel > n` gives the true digits. -/
def decReprAux : Nat → Nat → List Char
  | 0, _ => []
  | fuel + 1, n =>
    if n < 10 then [Nat.digitChar n]
    else decReprAux fuel (n / 10) ++ [Nat.digitChar (n % 10)]

/-- Decimal representation of a natural number, most significant first. -/
def decRepr (n : Nat) : List Char := decReprAux (n + 1) n

/-- Go `%0<width>d`: zero-pad the decimal representation on the left to at
least `width` characters (longer numbers keep all their digits). -/
def padNum (width n : Nat) : List Char :=
  List.replicate (width - (decRepr n).length) '0' ++ decRepr n

/-- Go `fmt.Sprintf("chunk_%04d.aac", i)` (runner.go line 143). -/
def chunkFileName (i : Nat) : String := "chunk_" ++ ⟨padNum 4 i⟩ ++ ".aac"

/-- Value of a most-significant-first digit string (used to reason about
decimal representations). -/
def valM : List Char → Nat
  | [] => 0
  | c :: cs => (c.toNat - 48) * 10 ^ cs.length + valM cs

/-- Bytewise lexical strict order on character lists (for the ASCII file
names at hand, byte order and codepoint order agree). -/
def lexLtB : List Char → List Char → Bool
  | [], [] => false
  | [], _ :: _ => true
  | _ :: _, [] => false
  | a :: as, b :: bs =>
    if a.toNat < b.toNat then true
    else if a.toNat = b.toNat then lexLtB as bs
    else false

/-- Gregorian civil date from a day count (days since 1970-01-01), the
standard era-based algorithm matching Go's `Time.Date` field computation;
divisions are Euclidean, which agrees with floor for the nonnegative
intermediate values. Returns (year, month, day). -/
def civilFromDays (z0 : Int) : Int × Int × Int :=
  let z := z0 + 719468
  let era := z / 146097
  let doe := z - era * 146097
  let yoe := (doe - doe / 1460 + doe / 36524 - doe / 146096) / 365
  let y := yoe + era * 400
  let doy := doe - (365 * yoe + yoe / 4 - yoe / 100)
  let mp := (5 * doy + 2) / 153
  let d := doy - (153 * mp + 2) / 5 + 1
  let mth := if mp < 10 then mp + 3 else mp - 9
  (if mth ≤ 2 then y + 1 else y, mth, d)

/-- Go `pastTime.Format("20060102150405")` in the JST-seconds model (day 0
of the model timeline is 2000-01-02 JST, which is 10958 days after
1970-01-01): zero-padded YYYYMMDDHHMMSS. -/
def fmtTimeRef (t : Int) : String :=
  let tod := t % 86400
  let ymd := civilFromDays (t / 86400 + 10958)
  ⟨padNum 4 ymd.1.toNat ++ padNum 2 ymd.2.1.toNat ++ padNum 2 ymd.2.2.toNat ++
    padNum 2 (tod / 3600).toNat ++ padNum 2 ((tod % 3600) / 60).toNat ++
    padNum 2 (tod % 60).toNat⟩

/-- Go `fmt.Sprintf("%s-%s-%s.aac", pastTime.Format("20060102150405"),
entry.StationID, entry.ProgramName)` (runner.go line 126). -/
def outputFileNameOf (entry : ScheduleEntry) (pastTime : Int) : String :=
  fmtTimeRef pastTime ++ "-" ++ entry.StationID ++ "-" ++ entry.ProgramName ++ ".aac"

/-- The output artifact path `filepath.Join(outputDir, outputFileName)`
(runner.go line 127). -/
def outPathOf (entry : ScheduleEntry) (pastTime : Int) (outputDir : String) : String :=
  joinPath outputDir (outputFileNameOf entry pastTime)

/-! ## External world: the radiko client and OS oracles -/

/-- Result of Go `client.Do(req)` for a GET of one URL: either a transport
error or a response with a status code and body bytes. -/
inductive DoResult where
  | transportErr (msg : String)
  | response (status : Nat) (body : List Nat)

/-- The fallible external operations `ExecuteJob` and `bulkDownload` call:
the three `RadikoClient` capabilities, `http.NewRequestWithContext` (fails
only as a function of the URL), `client.Do`, `os.MkdirTemp` and
`os.MkdirAll`. -/
structure World where
  authorizeToken : Except String String
  timeshiftPlaylistM3U8 : String → Int → Except String String
  getChunklistFromM3U8 : String → Except String (List String)
  newRequestErr : String → Option String
  doGet : String → DoResult
  mkdirTemp : Except String String
  mkdirAllOk : String → Bool

/-- Errors of `bulkDownload`: one constructor per `fmt.Errorf` in
runner.go lines 146-169, with fields exactly the interpolated data.  Note
the file-creation error (line 163) interpolates only the index, not the
URL. -/
inductive DownloadErr where
  | reqFailed (i : Nat) (url : String) (wrapped : String)
  | transportFailed (i : Nat) (url : String) (wrapped : String)
  | statusFailed (i : Nat) (url : String) (status : Nat)
  | createFailed (i : Nat)
  | writeFailed (i : Nat) (url : String)
deriving DecidableEq

/-- The failing chunk index interpolated into the download error. -/
def DownloadErr.chunkIndex : DownloadErr → Nat
  | .reqFailed i _ _ => i
  | .transportFailed i _ _ => i
  | .statusFailed i _ _ => i
  | .createFailed i => i
  | .writeFailed i _ => i

/-- The source URL interpolated into the download error, when the message
carries one. -/
def DownloadErr.sourceURL : DownloadErr → Option String
  | .reqFailed _ u _ => some u
  | .transportFailed _ u _ => some u
  | .statusFailed _ u _ => some u
  | .createFailed _ => none
  | .writeFailed _ u => some u

/-- Loop body of Go `bulkDownload` (runner.go lines 141-171): for each URL
in order build the request, fetch it, require status 200, create the
index-named file and stream the body into it; the first failure returns
immediately.  Returns the filesystem, the list of URLs actually fetched
(in fetch order), and either the ordered downloaded paths or the error. -/
def bulkDownloadGo (w : World) (destDir : String) :
    List String → Nat → List String → FS → List String →
    FS × List String × Except DownloadErr (List String)
  | [], _, acc, fs, trace => (fs, trace, .ok acc)
  | url :: rest, i, acc, fs, trace =>
    match w.newRequestErr url with
    | some e => (fs, trace, .error (.reqFailed i url e))
    | none =>
      match w.doGet url with
      | .transportErr e => (fs, trace ++ [url], .error (.transportFailed i url e))
      | .response status body =>
        if status ≠ 200 then (fs, trace ++ [url], .error (.statusFailed i url status))
        else
          if fs.createOk (joinPath destDir (chunkFileName i)) = false then
            (fs, trace ++ [url], .error (.createFailed i))
          else
            let fs1 := fs.create (joinPath destDir (chunkFileName i))
            if fs.writeOk (joinPath destDir (chunkFileName i)) = false then
              (fs1, trace ++ [url], .error (.writeFailed i url))
            else
              bulkDownloadGo w destDir rest (i + 1)
                (acc ++ [joinPath destDir (chunkFileName i)])
                (fs1.append (joinPath destDir (chunkFileName i)) body)
                (trace ++ [url])

/-- Go `bulkDownload(ctx, client, urls, destDir, s)` (runner.go lines
139-173). -/
def bulkDownload (w : World) (fs : FS) (urls : List String) (destDir : String) :
    FS × List String × Except DownloadErr (List String) :=
  bulkDownloadGo w destDir urls 0 [] fs []

/-- Errors of `concatAACFiles`: the three `fmt.Errorf` cases of runner.go
lines 179, 186 and 191, with the interpolated file name. -/
inductive ConcatErr where
  | createOutFailed (out : String)
  | openInFailed (p : String)
  | copyFailed (p : String)
deriving DecidableEq

/-- Loop of Go `concatAACFiles` (runner.go lines 183-193): open each input
in order and copy its bytes onto the end of the output file; fail fast on
an unopenable input or a failed copy.  Also returns the list of input files
successfully opened (read), in order. -/
def concatGo (out : String) :
    List String → FS → List String → FS × List String × Option ConcatErr
  | [], fs, reads => (fs, reads, none)
  | p :: rest, fs, reads =>
    match fs.files p with
    | none => (fs, reads, some (.openInFailed p))
    | some content =>
      if fs.writeOk out = false then (fs, reads ++ [p], some (.copyFailed p))
      else concatGo out rest (fs.append out content) (reads ++ [p])

/-- Go `concatAACFiles(inputFiles, outputFile)` (runner.go lines 176-196):
`os.Create` the output (create-or-truncate), then copy each input in
order. -/
def concatAACFiles (fs : FS) (inputFiles : List String) (outputFile : String) :
    FS × List String × Option ConcatErr :=
  if fs.createOk outputFile = false then (fs, [], some (.createOutFailed outputFile))
  else concatGo outputFile inputFiles (fs.create outputFile) []

/-- Errors surfaced by `ExecuteJob`: one constructor per `fmt.Errorf` in
runner.go lines 64-130, with fields exactly the interpolated data.  The
authorization, temp-dir and output-dir wrappers interpolate no program
name; the playlist, chunklist, download and concatenation wrappers do. -/
inductive JobErr where
  | authorizeFailed (wrapped : String)
  | playlistFailed (program : String) (wrapped : String)
  | chunklistFailed (program : String) (wrapped : String)
  | mkdirTempFailed (wrapped : String)
  | downloadFailed (program : String) (wrapped : DownloadErr)
  | outputDirFailed (dir : String)
  | concatFailed (program : String) (wrapped : ConcatErr)
deriving DecidableEq

/-- The schedule entry's program name interpolated into the job error, when
the message carries one. -/
def JobErr.programName : JobErr → Option String
  | .playlistFailed p _ => some p
  | .chunklistFailed p _ => some p
  | .downloadFailed p _ => some p
  | .concatFailed p _ => some p
  | _ => none

/-- Go `ExecuteJob` (runner.go lines 55-135): authorize, resolve the
timeshift playlist, expand the chunklist, create the temporary directory
(whose removal is deferred to every later exit), bulk-download, ensure the
output directory, and concatenate into the output artifact. -/
def ExecuteJob (w : World) (entry : ScheduleEntry) (pastTime : Int)
    (outputDir : String) (fs : FS) : FS × Option JobErr :=
  match w.authorizeToken with
  | .error e => (fs, some (.authorizeFailed e))
  | .ok _ =>
    match w.timeshiftPlaylistM3U8 entry.StationID pastTime with
    | .error e => (fs, some (.playlistFailed entry.ProgramName e))
    | .ok uri =>
      match w.getChunklistFromM3U8 uri with
      | .error e => (fs, some (.chunklistFailed entry.ProgramName e))
      | .ok chunklist =>
        match w.mkdirTemp with
        | .error e => (fs, some (.mkdirTempFailed e))
        | .ok tempDir =>
          match bulkDownload w fs chunklist tempDir with
          | (fs1, _, .error e) =>
            (fs1.removeUnder tempDir, some (.downloadFailed entry.ProgramName e))
          | (fs1, _, .ok downloadedFiles) =>
            if w.mkdirAllOk outputDir = false then
              (fs1.removeUnder tempDir, some (.outputDirFailed outputDir))
            else
              match concatAACFiles fs1 downloadedFiles (outPathOf entry pastTime outputDir) with
              | (fs2, _, some e) =>
                (fs2.removeUnder tempDir, some (.concatFailed entry.ProgramName e))
              | (fs2, _, none) => (fs2.removeUnder tempDir, none)

/-! ## Concrete sample environments used by witnesses and counterexamples -/

/-- An empty filesystem where every path is creatable and writable. -/
def emptyFS : FS where
  files := fun _ => none
  createOk := fun _ => true
  writeOk := fun _ => true

/-- A world in which every external operation succeeds. -/
def sampleWorld : World where
  authorizeToken := .ok "token"
  timeshiftPlaylistM3U8 := fun _ _ => .ok "http://playlist"
  getChunklistFromM3U8 := fun _ => .ok ["http://c0", "http://c1"]
  newRequestErr := fun _ => none
  doGet := fun u => .response 200 (if u = "http://c0" then [1, 2] else [3])
  mkdirTemp := .ok "/tmp/w"
  mkdirAllOk := fun _ => true

/-- A sample schedule entry. -/
def sampleEntry : ScheduleEntry := ⟨"MyShow", "月", "010000", "TBS"⟩

/-- Filesystem for the C3 counterexample: no file can be created. -/
def noCreateFS : FS := { emptyFS with createOk := fun _ => false }

/-- Filesystem for the C6 counterexample: the output file already exists
with content `[9]`, and an input file `"in"` holds `[1, 2]`. -/
def preExistingOutFS : FS :=
  { emptyFS with
    files := fun p => if p = "in" then some [1, 2] else if p = "out" then some [9] else none }

/-- World for the C7 counterexample: authorization fails. -/
def authFailWorld : World := { sampleWorld with authorizeToken := .error "boom" }

/-- World for the C8 counterexample: one chunk, everything up to assembly
succeeds. -/
def oneChunkWorld : World :=
  { sampleWorld with getChunklistFromM3U8 := fun _ => .ok ["http://c0"] }

/-- Filesystem for the C8 counterexample: writes into the output directory
`out/` fail (e.g. the disk fills up there), while the staging area works. -/
def outWriteFailFS : FS := { emptyFS with writeOk := fun p => !(hasPre "out/" p) }

/-! ## Theorems: the time resolver -/

/-- A mapped day-of-week ordinal is below 7. -/
theorem DayOfWeekMap_lt_seven {s : String} {w : Nat}
    (h : DayOfWeekMap s = some w) : w < 7 := by
  unfold DayOfWeekMap at h
  split_ifs at h <;> simp_all <;> omega

/-- A successfully parsed start time satisfies the stdlib range checks. -/
theorem parseHHMMSS_bounds {s : String} {h m sec : Nat}
    (hp : parseHHMMSS s = some (h, m, sec)) : h < 24 ∧ m < 60 ∧ sec < 60 := by
  unfold parseHHMMSS at hp
  repeat' split at hp
  all_goals simp_all

/-- C1: for a valid entry and any instant `now`, the resolver returns an
instant that is at most `now`, lies in the half-open week window ending at
`now`, has the entry's weekday and time-of-day, and is the unique such
instant in that window; moreover when the in-week candidate is strictly
after `now` the result is the candidate minus 7 days, and when the candidate
equals `now` the result is `now` itself. -/
theorem C1_resolver_correct (entry : ScheduleEntry) (now : Int)
    (w h m s : Nat)
    (hd : DayOfWeekMap entry.DayOfWeek = some w)
    (hp : parseHHMMSS entry.StartTime = some (h, m, s)) (r : Int)
    (hr : CalculateRecentPastRunTime entry now = .ok r) :
    r ≤ now ∧ now - 604800 < r ∧
    weekdayOf r = (w : Int) ∧
    r % 86400 = ((h : Int) * 3600 + m * 60 + s) ∧
    (∀ t : Int, now - 604800 < t → t ≤ now → weekdayOf t = (w : Int) →
      t % 86400 = ((h : Int) * 3600 + m * 60 + s) → t = r) ∧
    (now < candidateOf now w ((h : Int) * 3600 + m * 60 + s) →
      r = candidateOf now w ((h : Int) * 3600 + m * 60 + s) - 604800) ∧
    (candidateOf now w ((h : Int) * 3600 + m * 60 + s) = now → r = now) := by
  have hw : w < 7 := DayOfWeekMap_lt_seven hd
  obtain ⟨hh, hm, hs⟩ := parseHHMMSS_bounds hp
  unfold CalculateRecentPastRunTime at hr
  rw [hd, hp] at hr
  simp only at hr
  unfold candidateOf startOfDayOf weekdayOf at hr ⊢
  split at hr <;>
    (rename_i hcmp
     injection hr with hr
     refine ⟨by omega, by omega, by omega, by omega, ?_, by omega, by omega⟩
     intro t ht1 ht2 ht3 ht4
     omega)

/-- Witness for C1 at a concrete input: now is Tuesday 10:00:00 (day 2 of
the model timeline), the entry fires Tuesdays at 03:00:00, and the resolver
returns that same Tuesday 03:00:00, which is at most now. -/
theorem C1_resolver_correct_witness :
    CalculateRecentPastRunTime ⟨"p", "火", "030000", "TBS"⟩ 208800 =
      .ok 183600 ∧ (183600 : Int) ≤ 208800 :=
  ⟨rfl,
    (C1_resolver_correct ⟨"p", "火", "030000", "TBS"⟩ 208800 2 3 0 0
      (by decide) (by decide) 183600 rfl).1⟩

/-- C5: the resolver fails exactly when the day-of-week symbol is unmapped
or the start time does not parse, the unmapped-day error (carrying the
offending symbol) taking priority, and the start-time error carrying the
offending string. -/
theorem C5_resolver_errors (entry : ScheduleEntry) (now : Int) :
    ((∃ e, CalculateRecentPastRunTime entry now = .error e) ↔
      (DayOfWeekMap entry.DayOfWeek = none ∨
        parseHHMMSS entry.StartTime = none)) ∧
    (DayOfWeekMap entry.DayOfWeek = none →
      CalculateRecentPastRunTime entry now =
        .error (.invalidDayOfWeek entry.DayOfWeek)) ∧
    (∀ w, DayOfWeekMap entry.DayOfWeek = some w →
      parseHHMMSS entry.StartTime = none →
      CalculateRecentPastRunTime entry now =
        .error (.invalidStartTime entry.StartTime)) := by
  unfold CalculateRecentPastRunTime
  cases hD : DayOfWeekMap entry.DayOfWeek with
  | none => simp
  | some w =>
    cases hP : parseHHMMSS entry.StartTime with
    | none => simp
    | some t =>
      obtain ⟨h, m, s⟩ := t
      refine ⟨?_, by simp, by simp⟩
      constructor
      · rintro ⟨e, he⟩
        simp only at he
        split at he <;> exact absurd he (by simp)
      · rintro (h1 | h1) <;> simp_all

/-- Witness for C5: an entry with an unmapped day-of-week symbol makes the
resolver return the invalid-day error carrying that symbol. -/
theorem C5_resolver_errors_witness :
    CalculateRecentPastRunTime ⟨"p", "Mon", "030000", "TBS"⟩ 0 =
      .error (.invalidDayOfWeek "Mon") :=
  (C5_resolver_errors ⟨"p", "Mon", "030000", "TBS"⟩ 0).2.1 (by decide)

/-- C10: the resolver is a pure function of the entry's day-of-week, its
start time, and the instant: two calls agreeing on those inputs return
identical results, so no other field and no hidden state can influence the
outcome. -/
theorem C10_resolver_pure (e1 e2 : ScheduleEntry) (n1 n2 : Int)
    (hdow : e1.DayOfWeek = e2.DayOfWeek) (hst : e1.StartTime = e2.StartTime)
    (hn : n1 = n2) :
    CalculateRecentPastRunTime e1 n1 = CalculateRecentPastRunTime e2 n2 := by
  subst hn
  unfold CalculateRecentPastRunTime
  rw [hdow, hst]

/-- Witness for C10: two entries differing only in program name and station
resolve identically. -/
theorem C10_resolver_pure_witness :
    CalculateRecentPastRunTime ⟨"A", "月", "120000", "S1"⟩ 400000 =
      CalculateRecentPastRunTime ⟨"B", "月", "120000", "S2"⟩ 400000 :=
  C10_resolver_pure _ _ _ _ rfl rfl rfl

/-! ## Theorems: the assembler (`concatAACFiles`) -/

/-- The concatenation loop on inputs that are all present and distinct from
the output: it succeeds, appends their contents in order onto the output,
reads exactly the inputs in order, and touches no other path. -/
theorem concatGo_ok (out : String) (segs : List (String × List Nat)) :
    ∀ (fs : FS) (reads : List String) (acc : List Nat),
      (∀ p c, (p, c) ∈ segs → fs.files p = some c ∧ p ≠ out) →
      fs.files out = some acc → fs.writeOk out = true →
      (concatGo out (segs.map Prod.fst) fs reads).2.2 = none ∧
      (concatGo out (segs.map Prod.fst) fs reads).1.files out =
        some (acc ++ (segs.map Prod.snd).flatten) ∧
      (concatGo out (segs.map Prod.fst) fs reads).2.1 =
        reads ++ segs.map Prod.fst ∧
      (∀ q, q ≠ out →
        (concatGo out (segs.map Prod.fst) fs reads).1.files q = fs.files q) := by
  induction segs with
  | nil => intro fs reads acc hseg hout hw; simp [concatGo, hout]
  | cons pc rest ih =>
    obtain ⟨p, c⟩ := pc
    intro fs reads acc hseg hout hw
    obtain ⟨hp, hpne⟩ := hseg p c (by simp)
    simp only [List.map_cons, concatGo, hp, hw]
    have hseg' : ∀ p' c', (p', c') ∈ rest →
        (fs.append out c).files p' = some c' ∧ p' ≠ out := by
      intro p' c' hm
      obtain ⟨h1, h2⟩ := hseg p' c' (by simp [hm])
      exact ⟨by simp [FS.append, h2, h1], h2⟩
    have hout' : (fs.append out c).files out = some (acc ++ c) := by
      simp [FS.append, hout]
    have hw' : (fs.append out c).writeOk out = true := hw
    obtain ⟨g1, g2, g3, g4⟩ := ih (fs.append out c) (reads ++ [p]) (acc ++ c) hseg' hout' hw'
    simp only [Bool.true_eq_false, if_false]
    refine ⟨g1, ?_, by simpa using g3, ?_⟩
    · rw [g2]
      simp [List.append_assoc]
    · intro q hq
      rw [g4 q hq]
      simp [FS.append, hq]

/-- The concatenation loop never touches a path other than the output file,
and never changes the filesystem oracles, whatever happens. -/
theorem concatGo_frame (out : String) (inputs : List String) :
    ∀ (fs : FS) (reads : List String),
      (∀ q, q ≠ out → (concatGo out inputs fs reads).1.files q = fs.files q) ∧
      (concatGo out inputs fs reads).1.writeOk = fs.writeOk ∧
      (concatGo out inputs fs reads).1.createOk = fs.createOk := by
  induction inputs with
  | nil => intro fs reads; simp [concatGo]
  | cons p rest ih =>
    intro fs reads
    simp only [concatGo]
    cases hp : fs.files p with
    | none => simp
    | some c =>
      cases hw : fs.writeOk out with
      | false => simp
      | true =>
        simp only [Bool.true_eq_false, if_false]
        obtain ⟨g1, g2, g3⟩ := ih (fs.append out c) (reads ++ [p])
        refine ⟨?_, g2, g3⟩
        intro q hq
        rw [g1 q hq]
        simp [FS.append, hq]

/-- Once the output file exists, the concatenation loop leaves it existing
(possibly partially written), on success and on failure alike. -/
theorem concatGo_out_stays (out : String) (inputs : List String) :
    ∀ (fs : FS) (reads : List String) (a : List Nat),
      fs.files out = some a →
      (concatGo out inputs fs reads).1.files out ≠ none := by
  induction inputs with
  | nil => intro fs reads a hout; simp [concatGo, hout]
  | cons p rest ih =>
    intro fs reads a hout
    simp only [concatGo]
    cases hp : fs.files p with
    | none => simp [hout]
    | some c =>
      cases hw : fs.writeOk out with
      | false => simp [hout]
      | true =>
        simp only [Bool.true_eq_false, if_false]
        exact ih (fs.append out c) (reads ++ [p]) (a ++ c) (by simp [FS.append, hout])

/-- C2: assembling staged segment files that are present with the given
contents (and distinct from the creatable, writable output path) succeeds,
and the output artifact is the byte-exact concatenation of the contents in
the given order. -/
theorem C2_assemble_concat (fs : FS) (segs : List (String × List Nat)) (out : String)
    (hseg : ∀ p c, (p, c) ∈ segs → fs.files p = some c ∧ p ≠ out)
    (hc : fs.createOk out = true) (hw : fs.writeOk out = true) :
    (concatAACFiles fs (segs.map Prod.fst) out).2.2 = none ∧
    (concatAACFiles fs (segs.map Prod.fst) out).1.files out =
      some (segs.map Prod.snd).flatten := by
  unfold concatAACFiles
  simp only [hc, Bool.true_eq_false, if_false]
  have hseg' : ∀ p c, (p, c) ∈ segs →
      (fs.create out).files p = some c ∧ p ≠ out := by
    intro p c hm
    obtain ⟨h1, h2⟩ := hseg p c hm
    exact ⟨by simp [FS.create, h2, h1], h2⟩
  obtain ⟨g1, g2, g3, g4⟩ := concatGo_ok out segs (fs.create out) [] []
    hseg' (by simp [FS.create]) hw
  exact ⟨g1, by simpa using g2⟩

/-- Witness for C2: two staged files with contents [1,2] and [3] assemble
into the byte-exact concatenation [1,2,3]. -/
theorem C2_assemble_concat_witness :
    (concatAACFiles preExistingOutFS ["in"] "out2").2.2 = none ∧
    (concatAACFiles preExistingOutFS ["in"] "out2").1.files "out2" = some [1, 2] :=
  C2_assemble_concat preExistingOutFS [("in", [1, 2])] "out2"
    (by
      intro p c hm
      simp only [List.mem_singleton, Prod.mk.injEq] at hm
      obtain ⟨rfl, rfl⟩ := hm
      exact ⟨rfl, by decide⟩)
    rfl rfl

/-- C9: assembling an empty segment list behaves uniformly on every
invocation: whenever the destination can be created it succeeds and the
artifact is the zero-length file, and when the destination cannot be
created it fails with the create error — the same condition as for any
other input list, so emptiness itself is never rejected. -/
theorem C9_empty_assembly (fs : FS) (out : String) :
    (fs.createOk out = true →
      (concatAACFiles fs [] out).2.2 = none ∧
      (concatAACFiles fs [] out).1.files out = some []) ∧
    (fs.createOk out = false →
      concatAACFiles fs [] out = (fs, [], some (.createOutFailed out))) := by
  unfold concatAACFiles
  constructor
  · intro hc
    simp [hc, concatGo, FS.create]
  · intro hc
    simp [hc]

/-- Witness for C9: on a fully-writable filesystem, assembling zero
segments succeeds and yields a zero-length artifact. -/
theorem C9_empty_assembly_witness :
    (concatAACFiles emptyFS [] "out").2.2 = none ∧
    (concatAACFiles emptyFS [] "out").1.files "out" = some [] :=
  (C9_empty_assembly emptyFS "out").1 rfl

/-- C6 counterexample: the output file already exists (content [9]) and yet
assembly succeeds, truncating it and overwriting it with the input bytes —
`os.Create` is create-or-truncate, not exclusive creation, so an existing
destination file is not an error. -/
theorem C6_counterexample :
    preExistingOutFS.files "out" = some [9] ∧
    (concatAACFiles preExistingOutFS ["in"] "out").2.2 = none ∧
    (concatAACFiles preExistingOutFS ["in"] "out").1.files "out" = some [1, 2] := by
  refine ⟨by decide, by decide, by decide⟩

/-- C6 amended: assembly fails exactly on an uncreatable destination (in
which case the filesystem is untouched and no input file is read), while a
pre-existing destination file is no error: the run is identical to the run
on the filesystem in which the destination is absent (truncation). -/
theorem C6_amended (fs : FS) (inputs : List String) (out : String) :
    (fs.createOk out = false →
      concatAACFiles fs inputs out = (fs, [], some (.createOutFailed out))) ∧
    (fs.createOk out = true → ∀ old, fs.files out = some old →
      concatAACFiles fs inputs out =
        concatAACFiles
          { fs with files := fun q => if q = out then none else fs.files q }
          inputs out) := by
  constructor
  · intro hc
    unfold concatAACFiles
    simp [hc]
  · intro hc old hold
    have hfs : fs.create out =
        FS.create { fs with files := fun q => if q = out then none else fs.files q } out := by
      unfold FS.create
      congr 1
      funext q
      by_cases hq : q = out <;> simp [hq]
    unfold concatAACFiles
    simp only [hc, Bool.true_eq_false, if_false]
    rw [hfs]

/-- Witness for C6 (amended): on a filesystem where nothing can be created,
assembly fails with the create error without reading any input. -/
theorem C6_amended_witness :
    concatAACFiles noCreateFS ["in"] "out" =
      (noCreateFS, [], some (.createOutFailed "out")) :=
  (C6_amended noCreateFS ["in"] "out").1 rfl

/-! ## Helper lemmas: prefixes and decimal strings -/

/-- A list is a prefix of itself followed by anything. -/
theorem isPrefixOf_append_self (l r : List Char) : l.isPrefixOf (l ++ r) = true := by
  induction l with
  | nil => simp [List.isPrefixOf]
  | cons c cs ih => simp [List.isPrefixOf, ih]

/-- Joining a name under a directory yields a path under that directory. -/
theorem hasPre_joinPath (d n : String) : hasPre (d ++ "/") (joinPath d n) = true := by
  unfold hasPre joinPath
  rw [String.data_append]
  exact isPrefixOf_append_self _ _

/-- The code of a decimal digit character. -/
theorem digitChar_toNat {k : Nat} (hk : k < 10) : (Nat.digitChar k).toNat = 48 + k := by
  interval_cases k <;> decide

/-- Value of a concatenation of digit strings. -/
theorem valM_append (xs ys : List Char) :
    valM (xs ++ ys) = valM xs * 10 ^ ys.length + valM ys := by
  induction xs with
  | nil => simp [valM]
  | cons c cs ih =>
    simp only [List.cons_append, valM, List.length_append, List.append_eq, ih]
    ring

/-- The decimal representation evaluates back to the represented number. -/
theorem valM_decReprAux : ∀ fuel n, n < fuel → valM (decReprAux fuel n) = n := by
  intro fuel
  induction fuel with
  | zero => intro n h; omega
  | succ f ih =>
    intro n h
    unfold decReprAux
    by_cases h10 : n < 10
    · simp [h10, valM, digitChar_toNat h10]
    · simp only [h10, if_false]
      rw [valM_append]
      rw [ih (n / 10) (by omega)]
      simp [valM, digitChar_toNat (show n % 10 < 10 by omega)]
      omega

/-- Leading zeros contribute nothing to the value. -/
theorem valM_replicate_zeroChar (k : Nat) : valM (List.replicate k '0') = 0 := by
  induction k with
  | zero => rfl
  | succ n ih => simp [List.replicate_succ, valM, ih]

/-- A zero-padded decimal representation evaluates back to the number. -/
theorem valM_padNum (width n : Nat) : valM (padNum width n) = n := by
  unfold padNum decRepr
  rw [valM_append, valM_replicate_zeroChar, valM_decReprAux (n + 1) n (by omega)]
  simp

/-- Every character of a decimal representation is a digit character. -/
theorem decReprAux_digits : ∀ fuel n c, c ∈ decReprAux fuel n →
    ∃ k, k < 10 ∧ c = Nat.digitChar k := by
  intro fuel
  induction fuel with
  | zero => intro n c h; simp [decReprAux] at h
  | succ f ih =>
    intro n c h
    unfold decReprAux at h
    by_cases h10 : n < 10
    · simp [h10] at h
      exact ⟨n, h10, h⟩
    · simp only [h10, if_false, List.mem_append, List.mem_singleton] at h
      rcases h with h | h
      · exact ih _ _ h
      · exact ⟨n % 10, by omega, h⟩

/-- Every character of a zero-padded decimal representation is a digit. -/
theorem padNum_digits (width n : Nat) (c : Char) (h : c ∈ padNum width n) :
    ∃ k, k < 10 ∧ c = Nat.digitChar k := by
  unfold padNum at h
  rw [List.mem_append] at h
  rcases h with h | h
  · exact ⟨0, by omega, List.eq_of_mem_replicate h⟩
  · exact decReprAux_digits _ _ _ h

/-- A digit string's value is below the power of ten of its length. -/
theorem valM_lt (ds : List Char) (hd : ∀ c ∈ ds, ∃ k, k < 10 ∧ c = Nat.digitChar k) :
    valM ds < 10 ^ ds.length := by
  induction ds with
  | nil => simp [valM]
  | cons c cs ih =>
    obtain ⟨k, hk, rfl⟩ := hd c (by simp)
    have h1 : valM cs < 10 ^ cs.length := ih (fun c hc => hd c (by simp [hc]))
    have h2 : k * 10 ^ cs.length ≤ 9 * 10 ^ cs.length :=
      Nat.mul_le_mul_right _ (by omega)
    simp only [valM, List.length_cons, digitChar_toNat hk, pow_succ,
      Nat.add_sub_cancel_left]
    omega

/-- The decimal representation has at most `k` digits when the number is
below the `k`-th power of ten. -/
theorem decReprAux_length_le : ∀ fuel n k, n < fuel → n < 10 ^ k → 1 ≤ k →
    (decReprAux fuel n).length ≤ k := by
  intro fuel
  induction fuel with
  | zero => intro n k h; omega
  | succ f ih =>
    intro n k h hk h1
    unfold decReprAux
    by_cases h10 : n < 10
    · simpa [h10] using h1
    · simp only [h10, if_false, List.length_append, List.length_singleton]
      have hk2 : 2 ≤ k := by
        by_contra hc
        have hk1 : k = 1 := by omega
        subst hk1
        simp at hk
        omega
      have hpow : 10 ^ k = 10 ^ (k - 1) * 10 := by
        rw [← pow_succ]
        congr 1
        omega
      have hr := ih (n / 10) (k - 1) (by omega) (by omega) (by omega)
      omega

/-- A padded representation of a small enough number has exactly the pad
width. -/
theorem padNum_length {width n : Nat} (h : (decRepr n).length ≤ width) :
    (padNum width n).length = width := by
  unfold padNum
  simp only [List.length_append, List.length_replicate]
  omega

/-- Numbers up to 9999 pad to exactly four characters. -/
theorem padNum_four_length {n : Nat} (h : n ≤ 9999) : (padNum 4 n).length = 4 := by
  apply padNum_length
  have h4 : (10 : Nat) ^ 4 = 10000 := by norm_num
  exact decReprAux_length_le (n + 1) n 4 (by omega) (by omega) (by omega)

/-- On equal-length digit strings, lexical comparison agrees with numeric
comparison of their values. -/
theorem digitsLex : ∀ (as bs : List Char), as.length = bs.length →
    (∀ c ∈ as, ∃ k, k < 10 ∧ c = Nat.digitChar k) →
    (∀ c ∈ bs, ∃ k, k < 10 ∧ c = Nat.digitChar k) →
    valM as < valM bs → lexLtB as bs = true := by
  intro as
  induction as with
  | nil =>
    intro bs hlen hda hdb hv
    cases bs with
    | nil => simp [valM] at hv
    | cons b bs' => simp at hlen
  | cons a as' ih =>
    intro bs hlen hda hdb hv
    cases bs with
    | nil => simp at hlen
    | cons b bs' =>
      obtain ⟨ka, hka, ha⟩ := hda a (by simp)
      obtain ⟨kb, hkb, hb⟩ := hdb b (by simp)
      subst ha
      subst hb
      have hlen' : as'.length = bs'.length := by simpa using hlen
      have hva : valM as' < 10 ^ as'.length :=
        valM_lt _ (fun c hc => hda c (by simp [hc]))
      have hvb : valM bs' < 10 ^ bs'.length :=
        valM_lt _ (fun c hc => hdb c (by simp [hc]))
      simp only [valM, digitChar_toNat hka, digitChar_toNat hkb, hlen',
        Nat.add_sub_cancel_left] at hv
      simp only [lexLtB, digitChar_toNat hka, digitChar_toNat hkb]
      rcases Nat.lt_trichotomy ka kb with hlt | heq | hgt
      · rw [if_pos (by omega)]
      · subst heq
        rw [if_neg (by omega), if_pos rfl]
        apply ih bs' hlen' (fun c hc => hda c (by simp [hc]))
          (fun c hc => hdb c (by simp [hc]))
        omega
      · exfalso
        have h2 : (kb + 1) * 10 ^ bs'.length ≤ ka * 10 ^ bs'.length :=
          Nat.mul_le_mul_right _ (by omega)
        have h3 : (kb + 1) * 10 ^ bs'.length = kb * 10 ^ bs'.length + 10 ^ bs'.length := by
          ring
        omega

/-- Lexical comparison ignores a shared prefix. -/
theorem lexLtB_append_same : ∀ (p as bs : List Char),
    lexLtB (p ++ as) (p ++ bs) = lexLtB as bs := by
  intro p
  induction p with
  | nil => intro as bs; rfl
  | cons c cs ih =>
    intro as bs
    simp only [List.cons_append, lexLtB, lt_irrefl, if_false, if_true, List.append_eq]
    exact ih as bs

/-- A strict lexical comparison between equal-length strings is preserved
by appending arbitrary suffixes. -/
theorem lexLtB_append_of_lt : ∀ (as bs s t : List Char), as.length = bs.length →
    lexLtB as bs = true → lexLtB (as ++ s) (bs ++ t) = true := by
  intro as
  induction as with
  | nil =>
    intro bs s t hlen h
    cases bs with
    | nil => simp [lexLtB] at h
    | cons b bs' => simp at hlen
  | cons a as' ih =>
    intro bs s t hlen h
    cases bs with
    | nil => simp at hlen
    | cons b bs' =>
      simp only [List.cons_append, lexLtB] at h ⊢
      by_cases h1 : a.toNat < b.toNat
      · rw [if_pos h1]
      · rw [if_neg h1] at h ⊢
        by_cases h2 : a.toNat = b.toNat
        · rw [if_pos h2] at h ⊢
          exact ih bs' s t (by simpa using hlen) h
        · rw [if_neg h2] at h
          exact absurd h (by simp)

/-- The characters of a chunk file name. -/
theorem chunkFileName_data (i : Nat) :
    (chunkFileName i).data = "chunk_".data ++ padNum 4 i ++ ".aac".data := by
  unfold chunkFileName
  rw [String.data_append, String.data_append]

/-- Chunk file names are injective in the index. -/
theorem chunkFileName_data_inj {i j : Nat}
    (h : (chunkFileName i).data = (chunkFileName j).data) : i = j := by
  rw [chunkFileName_data, chunkFileName_data] at h
  rw [List.append_assoc, List.append_assoc] at h
  have h1 := List.append_cancel_left h
  have h2 := List.append_cancel_right h1
  have := congrArg valM h2
  rwa [valM_padNum, valM_padNum] at this

/-- Distinct chunk indices give distinct staged paths under the same
directory. -/
theorem joinPath_chunk_ne {d : String} {i j : Nat} (h : i ≠ j) :
    joinPath d (chunkFileName i) ≠ joinPath d (chunkFileName j) := by
  intro he
  apply h
  apply chunkFileName_data_inj
  have hd := congrArg String.data he
  unfold joinPath at hd
  rw [String.data_append, String.data_append] at hd
  exact List.append_cancel_left hd

/-! ## Theorems: the downloader (`bulkDownload`) -/

/-- The download loop never touches a path other than the staged chunk
paths with index at least the current one, and never changes the
filesystem oracles. -/
theorem bulkDownloadGo_frame (w : World) (destDir : String) :
    ∀ (urls : List String) (i : Nat) (acc : List String) (fs : FS)
      (trace : List String),
      (bulkDownloadGo w destDir urls i acc fs trace).1.createOk = fs.createOk ∧
      (bulkDownloadGo w destDir urls i acc fs trace).1.writeOk = fs.writeOk ∧
      ∀ q, (∀ k, i ≤ k → q ≠ joinPath destDir (chunkFileName k)) →
        (bulkDownloadGo w destDir urls i acc fs trace).1.files q = fs.files q := by
  intro urls
  induction urls with
  | nil => intro i acc fs trace; exact ⟨rfl, rfl, fun q _ => rfl⟩
  | cons url rest ih =>
    intro i acc fs trace
    simp only [bulkDownloadGo]
    cases hN : w.newRequestErr url with
    | some e => exact ⟨rfl, rfl, fun q _ => rfl⟩
    | none =>
      cases hD : w.doGet url with
      | transportErr e => exact ⟨rfl, rfl, fun q _ => rfl⟩
      | response status body =>
        dsimp only
        by_cases hS : status ≠ 200
        · rw [if_pos hS]
          exact ⟨rfl, rfl, fun q _ => rfl⟩
        · rw [if_neg hS]
          by_cases hC : fs.createOk (joinPath destDir (chunkFileName i)) = false
          · rw [if_pos hC]
            exact ⟨rfl, rfl, fun q _ => rfl⟩
          · rw [if_neg hC]
            by_cases hW : fs.writeOk (joinPath destDir (chunkFileName i)) = false
            · rw [if_pos hW]
              refine ⟨rfl, rfl, fun q hq => ?_⟩
              simp [FS.create, hq i (le_refl i)]
            · rw [if_neg hW]
              obtain ⟨g1, g2, g3⟩ := ih (i + 1)
                (acc ++ [joinPath destDir (chunkFileName i)])
                ((fs.create (joinPath destDir (chunkFileName i))).append
                  (joinPath destDir (chunkFileName i)) body) (trace ++ [url])
              refine ⟨g1, g2, fun q hq => ?_⟩
              rw [g3 q (fun k hk => hq k (by omega))]
              simp [FS.append, FS.create, hq i (le_refl i)]

/-- Success characterization of the download loop: the returned paths
extend the accumulator with the staged chunk paths in index order, the
fetch trace extends with exactly the input URLs in order, and the staged
file for position `j` holds the body fetched (with status 200) from the
`j`-th URL. -/
theorem bulkDownloadGo_ok (w : World) (destDir : String) :
    ∀ (urls : List String) (i : Nat) (acc : List String) (fs : FS)
      (trace : List String) (files : List String),
      (bulkDownloadGo w destDir urls i acc fs trace).2.2 = .ok files →
      files = acc ++ (List.range urls.length).map
          (fun j => joinPath destDir (chunkFileName (i + j))) ∧
      (bulkDownloadGo w destDir urls i acc fs trace).2.1 = trace ++ urls ∧
      ∀ j (hj : j < urls.length), ∃ body,
        w.newRequestErr (urls.get ⟨j, hj⟩) = none ∧
        w.doGet (urls.get ⟨j, hj⟩) = .response 200 body ∧
        (bulkDownloadGo w destDir urls i acc fs trace).1.files
          (joinPath destDir (chunkFileName (i + j))) = some body := by
  intro urls
  induction urls with
  | nil =>
    intro i acc fs trace files h
    simp only [bulkDownloadGo] at h ⊢
    injection h with h
    subst h
    refine ⟨by simp, by simp, ?_⟩
    intro j hj
    simp at hj
  | cons url rest ih =>
    intro i acc fs trace files h
    simp only [bulkDownloadGo] at h ⊢
    cases hN : w.newRequestErr url with
    | some e =>
      rw [hN] at h
      dsimp only at h
      exact absurd h (by simp)
    | none =>
      rw [hN] at h
      dsimp only at h ⊢
      cases hD : w.doGet url with
      | transportErr e =>
        rw [hD] at h
        dsimp only at h
        exact absurd h (by simp)
      | response status body =>
        rw [hD] at h
        dsimp only at h ⊢
        by_cases hS : status ≠ 200
        · rw [if_pos hS] at h ⊢; exact absurd h (by simp)
        · rw [if_neg hS] at h ⊢
          have hS' : status = 200 := by omega
          subst hS'
          by_cases hC : fs.createOk (joinPath destDir (chunkFileName i)) = false
          · rw [if_pos hC] at h ⊢; exact absurd h (by simp)
          · rw [if_neg hC] at h ⊢
            by_cases hW : fs.writeOk (joinPath destDir (chunkFileName i)) = false
            · rw [if_pos hW] at h ⊢; exact absurd h (by simp)
            · rw [if_neg hW] at h ⊢
              obtain ⟨g1, g2, g3⟩ := ih (i + 1)
                (acc ++ [joinPath destDir (chunkFileName i)])
                ((fs.create (joinPath destDir (chunkFileName i))).append
                  (joinPath destDir (chunkFileName i)) body) (trace ++ [url]) files h
              refine ⟨?_, ?_, ?_⟩
              · rw [g1]
                simp only [List.length_cons, List.range_succ_eq_map, List.map_cons,
                  List.map_map, Nat.add_zero, List.append_assoc, List.singleton_append]
                congr 1
                congr 1
                apply List.map_congr_left
                intro j hj
                exact congrArg (fun n => joinPath destDir (chunkFileName n)) (by omega)
              · rw [g2]
                simp
              · intro j hj
                cases j with
                | zero =>
                  refine ⟨body, by simpa using hN, by simpa using hD, ?_⟩
                  obtain ⟨f1, f2, f3⟩ := bulkDownloadGo_frame w destDir rest (i + 1)
                    (acc ++ [joinPath destDir (chunkFileName i)])
                    ((fs.create (joinPath destDir (chunkFileName i))).append
                      (joinPath destDir (chunkFileName i)) body) (trace ++ [url])
                  rw [show i + 0 = i by omega]
                  rw [f3 (joinPath destDir (chunkFileName i))
                    (fun k hk => joinPath_chunk_ne (by omega))]
                  simp [FS.append, FS.create]
                | succ j' =>
                  obtain ⟨b, hb1, hb2, hb3⟩ := g3 j' (by simpa using hj)
                  refine ⟨b, by simpa using hb1, by simpa using hb2, ?_⟩
                  rw [show i + (j' + 1) = i + 1 + j' by omega]
                  exact hb3

/-- Failure characterization of the download loop: the error names a failing
position within the input list, carries the source URL except in the
file-creation case (which carries only the index), and the fetch trace stops
at that position — later URLs are never attempted. -/
theorem bulkDownloadGo_err (w : World) (destDir : String) :
    ∀ (urls : List String) (i : Nat) (acc : List String) (fs : FS)
      (trace : List String) (e : DownloadErr),
      (bulkDownloadGo w destDir urls i acc fs trace).2.2 = .error e →
      ∃ j, ∃ hj : j < urls.length, e.chunkIndex = i + j ∧
        (e.sourceURL = some (urls.get ⟨j, hj⟩) ∨
          (e = .createFailed (i + j) ∧ e.sourceURL = none)) ∧
        ((bulkDownloadGo w destDir urls i acc fs trace).2.1 = trace ++ urls.take j ∨
         (bulkDownloadGo w destDir urls i acc fs trace).2.1 =
           trace ++ urls.take (j + 1)) := by
  intro urls
  induction urls with
  | nil =>
    intro i acc fs trace e h
    simp only [bulkDownloadGo] at h
    exact absurd h (by simp)
  | cons url rest ih =>
    intro i acc fs trace e h
    simp only [bulkDownloadGo] at h ⊢
    cases hN : w.newRequestErr url with
    | some er =>
      rw [hN] at h
      dsimp only at h ⊢
      injection h with h
      subst h
      refine ⟨0, by simp, by simp [DownloadErr.chunkIndex], ?_, ?_⟩
      · left
        simp [DownloadErr.sourceURL]
      · left
        simp
    | none =>
      rw [hN] at h
      dsimp only at h ⊢
      cases hD : w.doGet url with
      | transportErr er =>
        rw [hD] at h
        dsimp only at h ⊢
        injection h with h
        subst h
        refine ⟨0, by simp, by simp [DownloadErr.chunkIndex], ?_, ?_⟩
        · left
          simp [DownloadErr.sourceURL]
        · right
          simp
      | response status body =>
        rw [hD] at h
        dsimp only at h ⊢
        by_cases hS : status ≠ 200
        · rw [if_pos hS] at h ⊢
          injection h with h
          subst h
          refine ⟨0, by simp, by simp [DownloadErr.chunkIndex], ?_, ?_⟩
          · left
            simp [DownloadErr.sourceURL]
          · right
            simp
        · rw [if_neg hS] at h ⊢
          by_cases hC : fs.createOk (joinPath destDir (chunkFileName i)) = false
          · rw [if_pos hC] at h ⊢
            injection h with h
            subst h
            refine ⟨0, by simp, by simp [DownloadErr.chunkIndex], ?_, ?_⟩
            · right
              exact ⟨by simp, by simp [DownloadErr.sourceURL]⟩
            · right
              simp
          · rw [if_neg hC] at h ⊢
            by_cases hW : fs.writeOk (joinPath destDir (chunkFileName i)) = false
            · rw [if_pos hW] at h ⊢
              injection h with h
              subst h
              refine ⟨0, by simp, by simp [DownloadErr.chunkIndex], ?_, ?_⟩
              · left
                simp [DownloadErr.sourceURL]
              · right
                simp
            · rw [if_neg hW] at h ⊢
              obtain ⟨j, hj, h1, h2, h3⟩ := ih (i + 1)
                (acc ++ [joinPath destDir (chunkFileName i)])
                ((fs.create (joinPath destDir (chunkFileName i))).append
                  (joinPath destDir (chunkFileName i)) body) (trace ++ [url]) e h
              refine ⟨j + 1, by simpa using hj, by omega, ?_, ?_⟩
              · rcases h2 with h2 | h2
                · left
                  simpa using h2
                · right
                  refine ⟨?_, h2.2⟩
                  rw [h2.1]
                  congr 1
                  omega
              · rcases h3 with h3 | h3
                · left
                  rw [h3]
                  simp [List.take_succ_cons, List.append_assoc]
                · right
                  rw [h3]
                  simp [List.take_succ_cons, List.append_assoc]

/-- C3 counterexample: for a single-URL batch on a filesystem where the
staged chunk file cannot be created, the download fails with the
file-creation error, whose interpolated data (runner.go line 163) contains
the failing index but no source URI — contradicting the claim that every
local write failure identifies both index and URI. -/
theorem C3_counterexample :
    (bulkDownload sampleWorld noCreateFS ["http://u0"] "/tmp/d").2.2 =
      .error (.createFailed 0) ∧
    DownloadErr.sourceURL (.createFailed 0) = none :=
  ⟨rfl, rfl⟩

/-- C3 amended: a failing download aborts at the failing position `k` — the
fetch trace never goes beyond position `k` — the error carries the index
`k`, and it carries the source URI except when the local file creation
fails, in which case it carries the index only; and a download-stage
failure inside `ExecuteJob` leaves the output artifact path untouched, so
no output artifact is produced. -/
theorem C3_amended :
    (∀ (w : World) (fs : FS) (urls : List String) (destDir : String)
      (e : DownloadErr),
      (bulkDownload w fs urls destDir).2.2 = .error e →
      ∃ hj : e.chunkIndex < urls.length,
        (e.sourceURL = some (urls.get ⟨e.chunkIndex, hj⟩) ∨
          (e = .createFailed e.chunkIndex ∧ e.sourceURL = none)) ∧
        ((bulkDownload w fs urls destDir).2.1 = urls.take e.chunkIndex ∨
         (bulkDownload w fs urls destDir).2.1 = urls.take (e.chunkIndex + 1))) ∧
    (∀ (w : World) (entry : ScheduleEntry) (t : Int) (outputDir : String)
      (fs : FS) (td : String) (p : String) (e : DownloadErr),
      w.mkdirTemp = .ok td →
      hasPre (td ++ "/") (outPathOf entry t outputDir) = false →
      (ExecuteJob w entry t outputDir fs).2 = some (.downloadFailed p e) →
      (ExecuteJob w entry t outputDir fs).1.files (outPathOf entry t outputDir) =
        fs.files (outPathOf entry t outputDir)) := by
  constructor
  · intro w fs urls destDir e h
    obtain ⟨j, hj, h1, h2, h3⟩ := bulkDownloadGo_err w destDir urls 0 [] fs [] e h
    have hje : e.chunkIndex = j := by omega
    unfold bulkDownload
    rw [hje]
    refine ⟨hj, ?_, ?_⟩
    · simpa using h2
    · simpa using h3
  · intro w entry t outputDir fs td p e htd hout h
    unfold ExecuteJob at h ⊢
    cases hA : w.authorizeToken with
    | error er => simp [hA] at h
    | ok tok =>
      rw [hA] at h
      dsimp only at h ⊢
      cases hP : w.timeshiftPlaylistM3U8 entry.StationID t with
      | error er => simp [hP] at h
      | ok uri =>
        rw [hP] at h
        dsimp only at h ⊢
        cases hL : w.getChunklistFromM3U8 uri with
        | error er => simp [hL] at h
        | ok chunklist =>
          rw [hL] at h
          dsimp only at h ⊢
          rw [htd] at h ⊢
          dsimp only at h ⊢
          obtain ⟨fs1, tr, res1, hB⟩ :
              ∃ fs1 tr res1, bulkDownload w fs chunklist td = (fs1, tr, res1) :=
            ⟨_, _, _, rfl⟩
          rw [hB] at h ⊢
          cases res1 with
          | error er =>
            dsimp only at h ⊢
            obtain ⟨f1, f2, f3⟩ := bulkDownloadGo_frame w td chunklist 0 [] fs []
            have hB' : bulkDownloadGo w td chunklist 0 [] fs [] = (fs1, tr, .error er) := hB
            have hfs1 : fs1.files (outPathOf entry t outputDir) =
                fs.files (outPathOf entry t outputDir) := by
              have hfr := f3 (outPathOf entry t outputDir) (fun k hk => by
                intro hq
                rw [hq] at hout
                rw [hasPre_joinPath] at hout
                exact absurd hout (by simp))
              rw [hB'] at hfr
              exact hfr
            simp only [FS.removeUnder, hout]
            simpa using hfs1
          | ok downloadedFiles =>
            dsimp only at h ⊢
            by_cases hM : w.mkdirAllOk outputDir = false
            · rw [if_pos hM] at h
              exact absurd h (by simp)
            · rw [if_neg hM] at h
              obtain ⟨fs2, reads, res2, hC2⟩ :
                  ∃ fs2 reads res2, concatAACFiles fs1 downloadedFiles
                    (outPathOf entry t outputDir) = (fs2, reads, res2) :=
                ⟨_, _, _, rfl⟩
              rw [hC2] at h
              cases res2 with
              | some er => exact absurd h (by simp)
              | none => exact absurd h (by simp)

/-- Witness for C3 (amended), applying it to the concrete failing run of the
counterexample: the create-failure error names index 0 and no URI, and the
fetch trace covers only the first (failing) segment. -/
theorem C3_amended_witness :
    ∃ hj : (DownloadErr.createFailed 0).chunkIndex <
        (["http://u0"] : List String).length,
      ((DownloadErr.createFailed 0).sourceURL =
          some ((["http://u0"] : List String).get
            ⟨(DownloadErr.createFailed 0).chunkIndex, hj⟩) ∨
        (DownloadErr.createFailed 0 =
            .createFailed (DownloadErr.createFailed 0).chunkIndex ∧
          (DownloadErr.createFailed 0).sourceURL = none)) ∧
      ((bulkDownload sampleWorld noCreateFS ["http://u0"] "/tmp/d").2.1 =
          (["http://u0"] : List String).take (DownloadErr.createFailed 0).chunkIndex ∨
       (bulkDownload sampleWorld noCreateFS ["http://u0"] "/tmp/d").2.1 =
          (["http://u0"] : List String).take
            ((DownloadErr.createFailed 0).chunkIndex + 1)) :=
  C3_amended.1 sampleWorld noCreateFS ["http://u0"] "/tmp/d" (.createFailed 0) rfl

/-- C4 counterexample: the `%04d` chunk naming is zero-padded only up to
four digits, so from the 10001st segment onwards lexical and numeric order
no longer coincide: 9999 < 10000 numerically, yet `chunk_9999.aac` is
lexically greater than `chunk_10000.aac`, not smaller. -/
theorem C4_counterexample :
    9999 < 10000 ∧
    lexLtB (chunkFileName 9999).data (chunkFileName 10000).data = false ∧
    lexLtB (chunkFileName 10000).data (chunkFileName 9999).data = true :=
  ⟨by omega, by decide, by decide⟩

/-- C4 amended: a successful bulk download returns the staged paths in
exactly input order (path `j` is the `j`-indexed chunk name under the
staging directory, holding the bytes fetched from the `j`-th URL), the
fetch trace is exactly the input URL list in order (segments are fetched
strictly in order, one at a time), and the zero-padded names make lexical
and numeric order coincide for indices up to 9999 (i.e. for jobs of at
most 10000 segments). -/
theorem C4_amended :
    (∀ (w : World) (fs : FS) (urls : List String) (destDir : String)
      (files : List String),
      (bulkDownload w fs urls destDir).2.2 = .ok files →
      files = (List.range urls.length).map
          (fun j => joinPath destDir (chunkFileName j)) ∧
      (bulkDownload w fs urls destDir).2.1 = urls ∧
      ∀ j (hj : j < urls.length), ∃ body,
        w.doGet (urls.get ⟨j, hj⟩) = .response 200 body ∧
        (bulkDownload w fs urls destDir).1.files
          (joinPath destDir (chunkFileName j)) = some body) ∧
    (∀ i j : Nat, i < j → j ≤ 9999 →
      lexLtB (chunkFileName i).data (chunkFileName j).data = true) := by
  constructor
  · intro w fs urls destDir files h
    obtain ⟨g1, g2, g3⟩ := bulkDownloadGo_ok w destDir urls 0 [] fs [] files h
    refine ⟨?_, by simpa using g2, ?_⟩
    · rw [g1]
      simp only [List.nil_append]
      apply List.map_congr_left
      intro a ha
      exact congrArg (fun n => joinPath destDir (chunkFileName n)) (by omega)
    · intro j hj
      obtain ⟨body, hb1, hb2, hb3⟩ := g3 j hj
      exact ⟨body, hb2, by simpa using hb3⟩
  · intro i j hij hj
    rw [chunkFileName_data, chunkFileName_data]
    rw [List.append_assoc, List.append_assoc]
    rw [lexLtB_append_same]
    apply lexLtB_append_of_lt
    · rw [padNum_four_length (by omega), padNum_four_length hj]
    · apply digitsLex
      · rw [padNum_four_length (by omega), padNum_four_length hj]
      · intro c hc
        exact padNum_digits 4 i c hc
      · intro c hc
        exact padNum_digits 4 j c hc
      · rw [valM_padNum, valM_padNum]
        exact hij

/-- Witness for C4 (amended): a concrete two-segment download succeeds with
the staged paths named by index in order, and a fetch trace equal to the
input URL order. -/
theorem C4_amended_witness :
    (["/tmp/d/chunk_0000.aac", "/tmp/d/chunk_0001.aac"] : List String) =
      (List.range 2).map (fun j => joinPath "/tmp/d" (chunkFileName j)) ∧
    (bulkDownload sampleWorld emptyFS ["http://c0", "http://c1"] "/tmp/d").2.1 =
      ["http://c0", "http://c1"] :=
  ⟨(C4_amended.1 sampleWorld emptyFS ["http://c0", "http://c1"] "/tmp/d"
      ["/tmp/d/chunk_0000.aac", "/tmp/d/chunk_0001.aac"] rfl).1,
   (C4_amended.1 sampleWorld emptyFS ["http://c0", "http://c1"] "/tmp/d"
      ["/tmp/d/chunk_0000.aac", "/tmp/d/chunk_0001.aac"] rfl).2.1⟩

/-! ## Theorems: the orchestrator (`ExecuteJob`) -/

/-- C7 counterexample: when authorization fails, the surfaced error (the
wrapper of runner.go line 64) carries no program name, contradicting the
claim that every stage's error is annotated with the schedule entry's
program name. -/
theorem C7_counterexample :
    (ExecuteJob authFailWorld sampleEntry 0 "out" emptyFS).2 =
      some (.authorizeFailed "boom") ∧
    JobErr.programName (.authorizeFailed "boom") = none :=
  ⟨rfl, rfl⟩

/-- C7 amended: every error surfaced by `ExecuteJob` is wrapped in a
stage-tagged constructor carrying the underlying error, and it carries the
schedule entry's program name except for the authorization, temp-dir, and
output-dir wrappers, which carry no program name. -/
theorem C7_amended (w : World) (entry : ScheduleEntry) (t : Int)
    (outputDir : String) (fs : FS) (err : JobErr)
    (h : (ExecuteJob w entry t outputDir fs).2 = some err) :
    err.programName = some entry.ProgramName ∨
      (∃ e, err = .authorizeFailed e) ∨ (∃ e, err = .mkdirTempFailed e) ∨
      err = .outputDirFailed outputDir := by
  unfold ExecuteJob at h
  cases hA : w.authorizeToken with
  | error er =>
    rw [hA] at h
    dsimp only at h
    injection h with h
    subst h
    exact Or.inr (Or.inl ⟨er, rfl⟩)
  | ok tok =>
    rw [hA] at h
    dsimp only at h
    cases hP : w.timeshiftPlaylistM3U8 entry.StationID t with
    | error er =>
      rw [hP] at h
      dsimp only at h
      injection h with h
      subst h
      exact Or.inl rfl
    | ok uri =>
      rw [hP] at h
      dsimp only at h
      cases hL : w.getChunklistFromM3U8 uri with
      | error er =>
        rw [hL] at h
        dsimp only at h
        injection h with h
        subst h
        exact Or.inl rfl
      | ok chunklist =>
        rw [hL] at h
        dsimp only at h
        cases hT : w.mkdirTemp with
        | error er =>
          rw [hT] at h
          dsimp only at h
          injection h with h
          subst h
          exact Or.inr (Or.inr (Or.inl ⟨er, rfl⟩))
        | ok td =>
          rw [hT] at h
          dsimp only at h
          obtain ⟨fs1, tr, res1, hB⟩ :
              ∃ fs1 tr res1, bulkDownload w fs chunklist td = (fs1, tr, res1) :=
            ⟨_, _, _, rfl⟩
          rw [hB] at h
          cases res1 with
          | error er =>
            dsimp only at h
            injection h with h
            subst h
            exact Or.inl rfl
          | ok downloadedFiles =>
            dsimp only at h
            by_cases hM : w.mkdirAllOk outputDir = false
            · rw [if_pos hM] at h
              injection h with h
              subst h
              exact Or.inr (Or.inr (Or.inr rfl))
            · rw [if_neg hM] at h
              obtain ⟨fs2, reads, res2, hC2⟩ :
                  ∃ fs2 reads res2, concatAACFiles fs1 downloadedFiles
                    (outPathOf entry t outputDir) = (fs2, reads, res2) :=
                ⟨_, _, _, rfl⟩
              rw [hC2] at h
              cases res2 with
              | some er =>
                dsimp only at h
                injection h with h
                subst h
                exact Or.inl rfl
              | none =>
                dsimp only at h
                exact absurd h (by simp)

/-- Witness for C7 (amended): the playlist-stage failure carries the
program name of the schedule entry. -/
theorem C7_amended_witness :
    (JobErr.playlistFailed "MyShow" "nope").programName = some "MyShow" ∨
      (∃ e, JobErr.playlistFailed "MyShow" "nope" = .authorizeFailed e) ∨
      (∃ e, JobErr.playlistFailed "MyShow" "nope" = .mkdirTempFailed e) ∨
      JobErr.playlistFailed "MyShow" "nope" = .outputDirFailed "out" :=
  C7_amended
    { sampleWorld with timeshiftPlaylistM3U8 := fun _ _ => .error "nope" }
    sampleEntry 0 "out" emptyFS (.playlistFailed "MyShow" "nope") rfl

/-- C8 counterexample: a job that fails during assembly (output-file writes
fail, e.g. the output disk fills) still leaves a file at the output
artifact path — the partial (here zero-length) output created by
`os.Create` is not cleaned up — so the output artifact is not present only
on success. -/
theorem C8_counterexample :
    (ExecuteJob oneChunkWorld sampleEntry 0 "out" outWriteFailFS).2 ≠ none ∧
    (ExecuteJob oneChunkWorld sampleEntry 0 "out" outWriteFailFS).1.files
      (outPathOf sampleEntry 0 "out") = some [] :=
  ⟨by decide, by decide⟩

/-- C8 amended: with a fresh workspace directory (as `os.MkdirTemp`
guarantees) distinct from the output path, after `ExecuteJob` returns no
file under the workspace remains (on every exit path), every path other
than the output artifact path is unchanged, and on success the output
artifact exists; on an assembly failure after the output file was created,
a partial output file may remain (see the counterexample), so presence of
the output file is guaranteed only on success but not excluded on
failure. -/
theorem C8_amended (w : World) (entry : ScheduleEntry) (t : Int)
    (outputDir : String) (fs : FS) (td : String)
    (htd : w.mkdirTemp = .ok td)
    (hfresh : ∀ q, hasPre (td ++ "/") q = true → fs.files q = none)
    (hout : hasPre (td ++ "/") (outPathOf entry t outputDir) = false) :
    (∀ q, hasPre (td ++ "/") q = true →
      (ExecuteJob w entry t outputDir fs).1.files q = none) ∧
    (∀ q, hasPre (td ++ "/") q = false → q ≠ outPathOf entry t outputDir →
      (ExecuteJob w entry t outputDir fs).1.files q = fs.files q) ∧
    ((ExecuteJob w entry t outputDir fs).2 = none →
      ∃ bs, (ExecuteJob w entry t outputDir fs).1.files
        (outPathOf entry t outputDir) = some bs) := by
  unfold ExecuteJob
  cases hA : w.authorizeToken with
  | error er =>
    dsimp only
    exact ⟨fun q hq => hfresh q hq, fun q _ _ => rfl, fun h3 => absurd h3 (by simp)⟩
  | ok tok =>
    dsimp only
    cases hP : w.timeshiftPlaylistM3U8 entry.StationID t with
    | error er =>
      dsimp only
      exact ⟨fun q hq => hfresh q hq, fun q _ _ => rfl, fun h3 => absurd h3 (by simp)⟩
    | ok uri =>
      dsimp only
      cases hL : w.getChunklistFromM3U8 uri with
      | error er =>
        dsimp only
        exact ⟨fun q hq => hfresh q hq, fun q _ _ => rfl, fun h3 => absurd h3 (by simp)⟩
      | ok chunklist =>
        dsimp only
        rw [htd]
        dsimp only
        obtain ⟨fs1, tr, res1, hB⟩ :
            ∃ fs1 tr res1, bulkDownload w fs chunklist td = (fs1, tr, res1) :=
          ⟨_, _, _, rfl⟩
        have hB1 : (bulkDownloadGo w td chunklist 0 [] fs []).1 = fs1 :=
          congrArg Prod.fst hB
        have hfr1 : ∀ q, hasPre (td ++ "/") q = false →
            fs1.files q = fs.files q := by
          intro q hq
          have h1 := (bulkDownloadGo_frame w td chunklist 0 [] fs []).2.2 q
            (fun k hk => by
              intro hqe
              rw [hqe, hasPre_joinPath] at hq
              exact absurd hq (by simp))
          rw [hB1] at h1
          exact h1
        rw [hB]
        cases res1 with
        | error er =>
          dsimp only
          refine ⟨fun q hq => by simp [FS.removeUnder, hq], ?_, ?_⟩
          · intro q hq hq2
            simp only [FS.removeUnder, hq]
            simpa using hfr1 q hq
          · intro h3
            exact absurd h3 (by simp)
        | ok downloadedFiles =>
          dsimp only
          by_cases hM : w.mkdirAllOk outputDir = false
          · rw [if_pos hM]
            refine ⟨fun q hq => by simp [FS.removeUnder, hq], ?_, ?_⟩
            · intro q hq hq2
              simp only [FS.removeUnder, hq]
              simpa using hfr1 q hq
            · intro h3
              exact absurd h3 (by simp)
          · rw [if_neg hM]
            obtain ⟨fs2, reads, res2, hC2⟩ :
                ∃ fs2 reads res2, concatAACFiles fs1 downloadedFiles
                  (outPathOf entry t outputDir) = (fs2, reads, res2) :=
              ⟨_, _, _, rfl⟩
            have hframe2 : ∀ q, q ≠ outPathOf entry t outputDir →
                fs2.files q = fs1.files q := by
              intro q hq
              unfold concatAACFiles at hC2
              by_cases hCO : fs1.createOk (outPathOf entry t outputDir) = false
              · rw [if_pos hCO] at hC2
                have hfs := congrArg Prod.fst hC2
                dsimp only at hfs
                rw [← hfs]
              · rw [if_neg hCO] at hC2
                have h1 := (concatGo_frame (outPathOf entry t outputDir)
                  downloadedFiles (fs1.create (outPathOf entry t outputDir)) []).1 q hq
                have h2 := congrArg Prod.fst hC2
                dsimp only at h2
                rw [h2] at h1
                rw [h1]
                simp [FS.create, hq]
            have hstays : fs1.createOk (outPathOf entry t outputDir) ≠ false →
                fs2.files (outPathOf entry t outputDir) ≠ none := by
              intro hCO
              unfold concatAACFiles at hC2
              rw [if_neg hCO] at hC2
              have h1 := concatGo_out_stays (outPathOf entry t outputDir)
                downloadedFiles (fs1.create (outPathOf entry t outputDir)) [] []
                (by simp [FS.create])
              have h2 := congrArg Prod.fst hC2
              dsimp only at h2
              rw [h2] at h1
              exact h1
            rw [hC2]
            cases res2 with
            | some er =>
              dsimp only
              refine ⟨fun q hq => by simp [FS.removeUnder, hq], ?_, ?_⟩
              · intro q hq hq2
                simp only [FS.removeUnder, hq]
                simp only [Bool.false_eq_true, if_false]
                rw [hframe2 q hq2]
                exact hfr1 q hq
              · intro h3
                exact absurd h3 (by simp)
            | none =>
              dsimp only
              refine ⟨fun q hq => by simp [FS.removeUnder, hq], ?_, ?_⟩
              · intro q hq hq2
                simp only [FS.removeUnder, hq]
                simp only [Bool.false_eq_true, if_false]
                rw [hframe2 q hq2]
                exact hfr1 q hq
              · intro h3
                by_cases hCO : fs1.createOk (outPathOf entry t outputDir) = false
                · exfalso
                  unfold concatAACFiles at hC2
                  rw [if_pos hCO] at hC2
                  have := congrArg (fun x => x.2.2) hC2
                  simp at this
                · have hne := hstays hCO
                  cases hv : fs2.files (outPathOf entry t outputDir) with
                  | none => exact absurd hv hne
                  | some bs =>
                    exact ⟨bs, by simp [FS.removeUnder, hout, hv]⟩

/-- Witness for C8 (amended): in the all-succeeding sample world on an
empty filesystem, after the job no file remains under the workspace, an
unrelated path is untouched, and the output artifact exists. -/
theorem C8_amended_witness :
    (ExecuteJob sampleWorld sampleEntry 0 "out" emptyFS).1.files
      "/tmp/w/chunk_0000.aac" = none ∧
    (ExecuteJob sampleWorld sampleEntry 0 "out" emptyFS).1.files "other" =
      emptyFS.files "other" ∧
    ((ExecuteJob sampleWorld sampleEntry 0 "out" emptyFS).2 = none →
      ∃ bs, (ExecuteJob sampleWorld sampleEntry 0 "out" emptyFS).1.files
        (outPathOf sampleEntry 0 "out") = some bs) :=
  ⟨(C8_amended sampleWorld sampleEntry 0 "out" emptyFS "/tmp/w" rfl
      (fun q _ => rfl) (by decide)).1 "/tmp/w/chunk_0000.aac" (by decide),
   (C8_amended sampleWorld sampleEntry 0 "out" emptyFS "/tmp/w" rfl
      (fun q _ => rfl) (by decide)).2.1 "other" (by decide) (by decide),
   (C8_amended sampleWorld sampleEntry 0 "out" emptyFS "/tmp/w" rfl
      (fun q _ => rfl) (by decide)).2.2⟩

end RadikoRec
